import Mathlib

/-!
# Verification of the dynamic tool-visibility filtering subsystem of rhoai-mcp

Shallow embedding of the filtering core:

* `src/rhoai_mcp/composites/optimizer/context.py` — `ConversationContextBuffer`
* `src/rhoai_mcp/composites/optimizer/manager.py` — `SmallModelOptimizer._filtered_list_tools`
* `src/rhoai_mcp/composites/toolscope/manager.py` — `ToolScopeManager`

Modelling conventions:

* Tool descriptors are identified by their unique `name` (the cached catalog is a
  Python `dict[str, Tool]` keyed by name); a list of tools is modelled by the list
  of its names.
* Python sets of names are modelled as duplicate-free lists built by guarded
  insertion; membership and cardinality coincide with the set semantics (the
  unspecified Python set iteration order is irrelevant to every property proved
  here, which concern only membership and length).
* Effectful steps (embedding-model construction, index build, index query) are
  modelled by explicit outcome environments (`Except` values / oracle functions),
  so "raises an exception" is `Except.error` and a caught exception is a branch
  on that value.
* `time.time()` timestamps are not modelled; no property depends on them.
* Python floats (similarity scores) are modelled as rationals; no property
  depends on their arithmetic.
-/

namespace RhoaiMCP

/-- Last `c` elements of a list: the retention behaviour of Python's
`deque(maxlen := c)` and of the slice `l[-c:]` (Nat subtraction clamps exactly
like Python's negative-index clamping). -/
def keepLast {α : Type} (c : Nat) (l : List α) : List α :=
  l.drop (l.length - c)

theorem keepLast_length {α : Type} (c : Nat) (l : List α) :
    (keepLast c l).length = min l.length c := by
  simp only [keepLast, List.length_drop]
  omega

theorem keepLast_of_le {α : Type} (c : Nat) (l : List α) (h : l.length ≤ c) :
    keepLast c l = l := by
  simp [keepLast, Nat.sub_eq_zero_of_le h]

theorem keepLast_nil {α : Type} (c : Nat) : keepLast c ([] : List α) = [] := by
  simp [keepLast]

/-- Re-truncating after an append is the same as truncating the full history:
the algebraic heart of the FIFO-eviction invariant. -/
theorem keepLast_append {α : Type} (c : Nat) (l m : List α) :
    keepLast c (keepLast c l ++ m) = keepLast c (l ++ m) := by
  unfold keepLast
  rw [List.drop_append_eq_append_drop, List.drop_append_eq_append_drop, List.drop_drop]
  have h₁ : l.length - c + ((l.drop (l.length - c) ++ m).length - c) = (l ++ m).length - c := by
    simp only [List.length_append, List.length_drop]
    omega
  have h₂ : (l.drop (l.length - c) ++ m).length - c - (l.drop (l.length - c)).length
      = (l ++ m).length - c - l.length := by
    simp only [List.length_append, List.length_drop]
    omega
  rw [h₁, h₂]

/-! ## ConversationContextBuffer (`optimizer/context.py`) -/

/-- One record of the conversation-context buffer (`ContextEntry`, context.py
lines 10–16). The `timestamp: float` field (wall-clock `time.time()`) is not
modelled; no claim refers to it. -/
structure ContextEntry where
  query : String
  toolCalls : List String
deriving Repr, DecidableEq

/-- Bounded FIFO buffer of recent context entries (`ConversationContextBuffer`,
context.py lines 19–93). The Python `deque(maxlen := max_size)` is modelled as
the list of retained entries, oldest first, together with the bound. -/
structure ConversationContextBuffer where
  maxSize : Nat
  entries : List ContextEntry
deriving Repr, DecidableEq

/-- `ConversationContextBuffer.add` (context.py lines 35–48): append a new entry
built from the query and `tool_calls or []`; the deque retains the last
`max_size` entries, evicting the oldest. -/
def ConversationContextBuffer.add (b : ConversationContextBuffer) (query : String)
    (toolCalls : Option (List String)) : ConversationContextBuffer :=
  ⟨b.maxSize, keepLast b.maxSize (b.entries ++ [⟨query, toolCalls.getD []⟩])⟩

/-- `ConversationContextBuffer.get_combined_query` (context.py lines 50–63):
join the `query` fields of the last 3 entries (`queries[-3:]`) with single
spaces; the empty buffer yields the empty string. -/
def ConversationContextBuffer.getCombinedQuery (b : ConversationContextBuffer) : String :=
  let queries := b.entries.map ContextEntry.query
  if queries.isEmpty then "" else String.intercalate " " (keepLast 3 queries)

/-- A whole sequence of `add` calls, oldest first. -/
def ConversationContextBuffer.addAll (b : ConversationContextBuffer)
    (items : List (String × Option (List String))) : ConversationContextBuffer :=
  items.foldl (fun acc it => acc.add it.1 it.2) b

/-- The entry that a single `add` call constructs. -/
def mkEntry (it : String × Option (List String)) : ContextEntry :=
  ⟨it.1, it.2.getD []⟩

theorem addAll_entries {c : Nat} (es : List ContextEntry)
    (items : List (String × Option (List String))) :
    (ConversationContextBuffer.addAll ⟨c, keepLast c es⟩ items).entries
      = keepLast c (es ++ items.map mkEntry) := by
  induction items generalizing es with
  | nil => simp [ConversationContextBuffer.addAll]
  | cons it rest ih =>
      show (ConversationContextBuffer.addAll
        ((ConversationContextBuffer.mk c (keepLast c es)).add it.1 it.2) rest).entries = _
      rw [show (ConversationContextBuffer.mk c (keepLast c es)).add it.1 it.2
            = ⟨c, keepLast c (keepLast c es ++ [mkEntry it])⟩ from rfl,
          keepLast_append, ih (es ++ [mkEntry it])]
      simp

/-- C5: for every sequence of `add` calls on a buffer constructed with capacity
`c`, the retained entries are exactly the last `min n c` entries added, in
insertion order (so the oldest entry is the one evicted when capacity is
exceeded), and the number of retained entries never exceeds `c`. -/
theorem contextBuffer_capacity_fifo (c : Nat)
    (items : List (String × Option (List String))) :
    ((ConversationContextBuffer.mk c []).addAll items).entries
        = (items.map mkEntry).drop (items.length - c) ∧
    ((ConversationContextBuffer.mk c []).addAll items).entries.length
        = min items.length c ∧
    ((ConversationContextBuffer.mk c []).addAll items).entries.length ≤ c := by
  have h : (ConversationContextBuffer.mk c []).addAll items
      = (ConversationContextBuffer.mk c (keepLast c [])).addAll items := by
    rw [keepLast_nil]
  rw [h, addAll_entries]
  refine ⟨by simp [keepLast], ?_, ?_⟩
  · simp only [List.nil_append, keepLast_length, List.length_map]
  · simp only [List.nil_append, keepLast_length, List.length_map]
    omega

/-- C6: `get_combined_query` joins the query texts of the last three retained
entries (all of them when fewer are retained) with single spaces, in
chronological order with the most recent last, and yields the empty string on
an empty buffer. -/
theorem getCombinedQuery_spec :
    (∀ b : ConversationContextBuffer,
        b.getCombinedQuery
          = String.intercalate " " (keepLast 3 (b.entries.map ContextEntry.query))) ∧
    (∀ c : Nat, (ConversationContextBuffer.mk c []).getCombinedQuery = "") ∧
    (∀ (c : Nat) (es : List ContextEntry) (e₁ e₂ e₃ : ContextEntry),
        (ConversationContextBuffer.mk c (es ++ [e₁, e₂, e₃])).getCombinedQuery
          = e₁.query ++ " " ++ e₂.query ++ " " ++ e₃.query) := by
  have base : ∀ b : ConversationContextBuffer,
      b.getCombinedQuery
        = String.intercalate " " (keepLast 3 (b.entries.map ContextEntry.query)) := by
    intro b
    unfold ConversationContextBuffer.getCombinedQuery
    rcases h : b.entries.map ContextEntry.query with _ | ⟨q, qs⟩
    · simp only [keepLast, List.drop_nil, List.isEmpty_nil, if_true]
      rfl
    · simp
  refine ⟨base, fun c => by simp [ConversationContextBuffer.getCombinedQuery], ?_⟩
  intro c es e₁ e₂ e₃
  rw [base]
  have hlen : (es.map ContextEntry.query).length = es.length := List.length_map _ _
  have : keepLast 3 ((ConversationContextBuffer.mk c (es ++ [e₁, e₂, e₃])).entries.map
      ContextEntry.query) = [e₁.query, e₂.query, e₃.query] := by
    show keepLast 3 ((es ++ [e₁, e₂, e₃]).map ContextEntry.query) = _
    rw [List.map_append]
    unfold keepLast
    simp only [List.length_append, List.length_map, List.map_cons, List.map_nil,
      List.length_cons, List.length_nil]
    have harith : es.length + (0 + 1 + 1 + 1) - 3 = es.length := by omega
    rw [show es.length + (0 + 1 + 1 + 1) - 3 = (es.map ContextEntry.query).length by
      rw [hlen]; omega]
    exact List.drop_left _ _
  rw [this]
  rfl

/-! ## SmallModelOptimizer (`optimizer/manager.py`) -/

/-- The `SmallModelMode` enumeration consumed by the optimizer. Its four values
are fixed by the uses in manager.py and the configuration surface (the config
module itself lies outside the filtering-core sources). -/
inductive SmallModelMode
  | NONE
  | MINIMAL
  | MODERATE
  | AGGRESSIVE
deriving Repr, DecidableEq

/-- The configuration fields `_filtered_list_tools` reads
(`small_model_mode`, `small_model_max_tools`, `small_model_pinned_tools`).
`max_tools` is a plain Python `int`, hence `Int`. -/
structure OptimizerConfig where
  smallModelMode : SmallModelMode
  smallModelMaxTools : Int
  smallModelPinnedTools : List String
deriving Repr

/-- The face of `ToolScopeManager` that the optimizer consumes: the
`is_initialized` flag and `search(query, k)` yielding match names in ranked
order. The search behaviour is an arbitrary oracle — the optimizer assumes
nothing about it (results may repeat or be absent from the catalog). -/
structure ToolScopeOracle where
  isInitialized : Bool
  searchNames : String → Int → List String

/-- State of a `SmallModelOptimizer` as read by `_filtered_list_tools`: the
configuration, the optional ToolScope manager, the owned context buffer, the
cached catalog `self._all_tools` (a dict keyed by unique tool name, modelled by
its key list), and the saved original `list_tools` result for pass-through. -/
structure SmallModelOptimizer where
  config : OptimizerConfig
  toolscope : Option ToolScopeOracle
  context : ConversationContextBuffer
  allTools : List String
  originalListTools : Option (List String)

/-- The fixed list of high-value default tools (manager.py line 121). -/
def defaults : List String :=
  ["explore_cluster", "cluster_summary", "project_summary"]

/-- Python `set.add`: insert a name unless already present. The unordered
Python set is modelled as an insertion-ordered duplicate-free list; every
property proved below concerns only membership and length, on which the two
agree. -/
def insertVisible (visible : List String) (name : String) : List String :=
  if name ∈ visible then visible else visible ++ [name]

/-- The pinned-tool loop (manager.py lines 92–99): add every configured pinned
name that exists in the cached catalog, silently skipping absent names. -/
def addPinned (allTools : List String) (pinnedTools : List String) : List String :=
  pinnedTools.foldl
    (fun visible name => if name ∈ allTools then insertVisible visible name else visible) []

/-- The candidate-accumulation loop shared by the semantic-match block
(manager.py lines 113–117) and the defaults block (lines 122–126): walk the
candidates in order, add each name that is in the catalog and not yet visible,
and stop as soon as the visible set reaches `max_tools`. -/
def addCandidates (allTools : List String) (maxTools : Int) :
    List String → List String → List String
  | [], visible => visible
  | name :: rest, visible =>
      if name ∉ visible ∧ name ∈ allTools then
        let visible' := visible ++ [name]
        if (visible'.length : Int) ≥ maxTools then visible'
        else addCandidates allTools maxTools rest visible'
      else addCandidates allTools maxTools rest visible

/-- Visible set after the pinned-tool loop (manager.py lines 92–99). -/
def SmallModelOptimizer.visiblePinned (o : SmallModelOptimizer) : List String :=
  addPinned o.allTools o.config.smallModelPinnedTools

/-- Visible set after the semantic-selection block (manager.py lines 105–117):
when capacity remains, the ToolScope manager exists and is initialized, and the
combined context query is non-empty, add semantic matches for
`k = remaining + 5` up to the cap. -/
def SmallModelOptimizer.visibleSemantic (o : SmallModelOptimizer) : List String :=
  let visible := o.visiblePinned
  let remaining : Int := o.config.smallModelMaxTools - visible.length
  if remaining > 0 ∧ (o.toolscope.map ToolScopeOracle.isInitialized).getD false then
    let query := o.context.getCombinedQuery
    if query ≠ "" then
      addCandidates o.allTools o.config.smallModelMaxTools
        ((o.toolscope.map (fun ts => ts.searchNames query (remaining + 5))).getD [])
        visible
    else visible
  else visible

/-- Visible set after the whole mode branch (manager.py lines 101–126):
`MINIMAL` keeps only the pinned tools; other non-`NONE` modes run the semantic
block and then top up with the high-value defaults while under `max_tools`. -/
def SmallModelOptimizer.visibleFinal (o : SmallModelOptimizer) : List String :=
  if o.config.smallModelMode = SmallModelMode.MINIMAL then o.visiblePinned
  else
    let visible := o.visibleSemantic
    if (visible.length : Int) < o.config.smallModelMaxTools then
      addCandidates o.allTools o.config.smallModelMaxTools defaults visible
    else visible

/-- `SmallModelOptimizer._filtered_list_tools` (manager.py lines 85–129):
mode `NONE` passes through the original `list_tools` result (empty when the
original was never captured); otherwise the final visible set is materialised
against the cached catalog (line 129). Tools are represented by their unique
names. -/
def SmallModelOptimizer.filteredListTools (o : SmallModelOptimizer) : List String :=
  if o.config.smallModelMode = SmallModelMode.NONE then o.originalListTools.getD []
  else o.visibleFinal.filter (fun name => decide (name ∈ o.allTools))

/-! ### Properties of the visible-set pipeline -/

theorem mem_insertVisible {visible : List String} {name a : String} :
    a ∈ insertVisible visible name ↔ a ∈ visible ∨ a = name := by
  unfold insertVisible
  by_cases h : name ∈ visible
  · rw [if_pos h]
    constructor
    · exact Or.inl
    · rintro (ha | rfl)
      · exact ha
      · exact h
  · rw [if_neg h]
    simp

theorem nodup_insertVisible {visible : List String} {name : String} (h : visible.Nodup) :
    (insertVisible visible name).Nodup := by
  unfold insertVisible
  by_cases hm : name ∈ visible
  · rwa [if_pos hm]
  · rw [if_neg hm]
    simp [List.nodup_append, h, hm]

theorem addPinned_go_mem (allTools pinnedTools acc : List String) (a : String) :
    (a ∈ pinnedTools.foldl
        (fun visible name => if name ∈ allTools then insertVisible visible name else visible) acc)
      ↔ a ∈ acc ∨ (a ∈ pinnedTools ∧ a ∈ allTools) := by
  induction pinnedTools generalizing acc with
  | nil => simp
  | cons n rest ih =>
      simp only [List.foldl_cons]
      by_cases hn : n ∈ allTools
      · rw [if_pos hn, ih, mem_insertVisible]
        have hsub : a = n → a ∈ allTools := fun h => h ▸ hn
        simp only [List.mem_cons]
        tauto
      · rw [if_neg hn, ih]
        have hsub : a = n → a ∉ allTools := fun h => h ▸ hn
        simp only [List.mem_cons]
        tauto

theorem addPinned_go_nodup (allTools pinnedTools acc : List String) (h : acc.Nodup) :
    (pinnedTools.foldl
        (fun visible name => if name ∈ allTools then insertVisible visible name else visible)
        acc).Nodup := by
  induction pinnedTools generalizing acc with
  | nil => simpa
  | cons n rest ih =>
      simp only [List.foldl_cons]
      by_cases hn : n ∈ allTools
      · rw [if_pos hn]
        exact ih _ (nodup_insertVisible h)
      · rw [if_neg hn]
        exact ih _ h

theorem mem_addPinned (allTools pinnedTools : List String) (a : String) :
    a ∈ addPinned allTools pinnedTools ↔ a ∈ pinnedTools ∧ a ∈ allTools := by
  unfold addPinned
  rw [addPinned_go_mem]
  simp

theorem nodup_addPinned (allTools pinnedTools : List String) :
    (addPinned allTools pinnedTools).Nodup :=
  addPinned_go_nodup allTools pinnedTools [] List.nodup_nil

theorem subset_addCandidates (allTools : List String) (maxTools : Int)
    (candidates visible : List String) :
    visible ⊆ addCandidates allTools maxTools candidates visible := by
  induction candidates generalizing visible with
  | nil => simp [addCandidates]
  | cons name rest ih =>
      simp only [addCandidates]
      split
      · split
        · exact List.subset_append_left _ _
        · exact (List.subset_append_left _ _).trans (ih _)
      · exact ih _

theorem mem_addCandidates (allTools : List String) (maxTools : Int)
    (candidates visible : List String) (a : String)
    (h : a ∈ addCandidates allTools maxTools candidates visible) :
    a ∈ visible ∨ a ∈ allTools := by
  induction candidates generalizing visible with
  | nil =>
      simp only [addCandidates] at h
      exact Or.inl h
  | cons name rest ih =>
      simp only [addCandidates] at h
      by_cases hc : name ∉ visible ∧ name ∈ allTools
      · rw [if_pos hc] at h
        by_cases hlen : (((visible ++ [name]).length : Int) ≥ maxTools)
        · rw [if_pos hlen] at h
          rcases List.mem_append.mp h with hv | hn
          · exact Or.inl hv
          · exact Or.inr (List.mem_singleton.mp hn ▸ hc.2)
        · rw [if_neg hlen] at h
          rcases ih _ h with hv | ha
          · rcases List.mem_append.mp hv with hv' | hn
            · exact Or.inl hv'
            · exact Or.inr (List.mem_singleton.mp hn ▸ hc.2)
          · exact Or.inr ha
      · rw [if_neg hc] at h
        exact ih _ h

theorem nodup_addCandidates (allTools : List String) (maxTools : Int)
    (candidates visible : List String) (h : visible.Nodup) :
    (addCandidates allTools maxTools candidates visible).Nodup := by
  induction candidates generalizing visible with
  | nil => simpa [addCandidates]
  | cons name rest ih =>
      simp only [addCandidates]
      by_cases hc : name ∉ visible ∧ name ∈ allTools
      · rw [if_pos hc]
        have hnd : (visible ++ [name]).Nodup := by
          simp [List.nodup_append, h, hc.1]
        split
        · exact hnd
        · exact ih _ hnd
      · rw [if_neg hc]
        exact ih _ h

theorem length_addCandidates_le (allTools : List String) (maxTools : Int)
    (candidates : List String) (visible : List String)
    (h : (visible.length : Int) < maxTools) :
    ((addCandidates allTools maxTools candidates visible).length : Int) ≤ maxTools := by
  induction candidates generalizing visible with
  | nil =>
      simp only [addCandidates]
      exact le_of_lt h
  | cons name rest ih =>
      simp only [addCandidates]
      split
      · split
        · simp only [List.length_append, List.length_singleton]
          push_cast
          omega
        · rename_i hlen
          refine ih _ ?_
          omega
      · exact ih _ h

theorem visiblePinned_subset_visibleSemantic (o : SmallModelOptimizer) :
    o.visiblePinned ⊆ o.visibleSemantic := by
  simp only [SmallModelOptimizer.visibleSemantic]
  split
  · split
    · exact subset_addCandidates _ _ _ _
    · exact fun _ h => h
  · exact fun _ h => h

theorem visibleSemantic_id (o : SmallModelOptimizer)
    (h : ¬ ((o.visiblePinned.length : Int) < o.config.smallModelMaxTools)) :
    o.visibleSemantic = o.visiblePinned := by
  simp only [SmallModelOptimizer.visibleSemantic]
  rw [if_neg]
  rintro ⟨hrem, -⟩
  omega

theorem visibleSemantic_length_le (o : SmallModelOptimizer)
    (h : (o.visiblePinned.length : Int) < o.config.smallModelMaxTools) :
    ((o.visibleSemantic.length : Int)) ≤ o.config.smallModelMaxTools := by
  simp only [SmallModelOptimizer.visibleSemantic]
  split
  · split
    · exact length_addCandidates_le _ _ _ _ h
    · exact le_of_lt h
  · exact le_of_lt h

theorem mem_visibleSemantic (o : SmallModelOptimizer) (a : String)
    (h : a ∈ o.visibleSemantic) : a ∈ o.visiblePinned ∨ a ∈ o.allTools := by
  revert h
  simp only [SmallModelOptimizer.visibleSemantic]
  split
  · split
    · exact mem_addCandidates _ _ _ _ _
    · exact Or.inl
  · exact Or.inl

theorem nodup_visibleSemantic (o : SmallModelOptimizer) : o.visibleSemantic.Nodup := by
  simp only [SmallModelOptimizer.visibleSemantic]
  split
  · split
    · exact nodup_addCandidates _ _ _ _ (nodup_addPinned _ _)
    · exact nodup_addPinned _ _
  · exact nodup_addPinned _ _

theorem visiblePinned_subset_visibleFinal (o : SmallModelOptimizer) :
    o.visiblePinned ⊆ o.visibleFinal := by
  simp only [SmallModelOptimizer.visibleFinal]
  split
  · exact fun _ h => h
  · split
    · exact (visiblePinned_subset_visibleSemantic o).trans (subset_addCandidates _ _ _ _)
    · exact visiblePinned_subset_visibleSemantic o

theorem nodup_visibleFinal (o : SmallModelOptimizer) : o.visibleFinal.Nodup := by
  simp only [SmallModelOptimizer.visibleFinal]
  split
  · exact nodup_addPinned _ _
  · split
    · exact nodup_addCandidates _ _ _ _ (nodup_visibleSemantic o)
    · exact nodup_visibleSemantic o

theorem visibleFinal_length_le (o : SmallModelOptimizer)
    (hmode : o.config.smallModelMode ≠ SmallModelMode.MINIMAL)
    (hpinned : (o.visiblePinned.length : Int) ≤ o.config.smallModelMaxTools) :
    ((o.visibleFinal.length : Int)) ≤ o.config.smallModelMaxTools := by
  simp only [SmallModelOptimizer.visibleFinal, if_neg hmode]
  split
  · rename_i hlt
    exact length_addCandidates_le _ _ _ _ hlt
  · rcases lt_or_eq_of_le hpinned with hlt | heq
    · exact visibleSemantic_length_le o hlt
    · rw [visibleSemantic_id o (by omega)]
      omega

/-! ### Claims about `_filtered_list_tools` -/

/-- C3: for every filtering mode other than `NONE`, every context-buffer state
and every semantic-index state, every configured pinned tool name present in
the cached catalog appears in the result of `_filtered_list_tools`, while any
name absent from the catalog never appears — so a pinned name missing from the
catalog is silently skipped without error. -/
theorem pinned_inclusion (o : SmallModelOptimizer)
    (hmode : o.config.smallModelMode ≠ SmallModelMode.NONE) :
    (∀ name, name ∈ o.config.smallModelPinnedTools → name ∈ o.allTools →
        name ∈ o.filteredListTools) ∧
    (∀ name, name ∉ o.allTools → name ∉ o.filteredListTools) := by
  unfold SmallModelOptimizer.filteredListTools
  rw [if_neg hmode]
  constructor
  · intro name hp ha
    exact List.mem_filter.mpr
      ⟨visiblePinned_subset_visibleFinal o ((mem_addPinned _ _ _).mpr ⟨hp, ha⟩),
       by simpa using ha⟩
  · intro name ha hmem
    exact ha (by simpa using (List.mem_filter.mp hmem).2)

/-- Concrete optimizer state for the C3 witness: MODERATE mode, one pinned name
present in the catalog and one pinned name absent from it. -/
def optC3 : SmallModelOptimizer :=
  ⟨⟨SmallModelMode.MODERATE, 5, ["suggest_tools", "ghost_tool"]⟩, none, ⟨5, []⟩,
   ["suggest_tools", "train", "explore_cluster"], none⟩

/-- Witness for C3: on `optC3` the present pinned name is returned and the
absent one is skipped. -/
theorem pinned_inclusion_witness :
    "suggest_tools" ∈ optC3.filteredListTools ∧
    "ghost_tool" ∉ optC3.filteredListTools :=
  ⟨(pinned_inclusion optC3 (by decide)).1 "suggest_tools" (by decide) (by decide),
   (pinned_inclusion optC3 (by decide)).2 "ghost_tool" (by decide)⟩

/-- C4: in `MINIMAL` mode, for every context-buffer state and semantic-index
state, the set of names returned by `_filtered_list_tools` is exactly the
intersection of the configured pinned names with the cached catalog — no
semantic matches and no default tools. -/
theorem minimal_mode_purity (o : SmallModelOptimizer)
    (hmode : o.config.smallModelMode = SmallModelMode.MINIMAL) :
    ∀ name, name ∈ o.filteredListTools ↔
      name ∈ o.config.smallModelPinnedTools ∧ name ∈ o.allTools := by
  intro name
  unfold SmallModelOptimizer.filteredListTools
  rw [if_neg (by simp [hmode])]
  simp only [SmallModelOptimizer.visibleFinal, if_pos hmode]
  rw [List.mem_filter]
  simp only [decide_eq_true_eq]
  rw [SmallModelOptimizer.visiblePinned, mem_addPinned]
  tauto

/-- Concrete optimizer state for the C4 witness: MINIMAL mode with an
initialized semantic index returning matches and a rich context, none of which
may leak into the result. -/
def optC4 : SmallModelOptimizer :=
  ⟨⟨SmallModelMode.MINIMAL, 10, ["suggest_tools", "list_tool_categories"]⟩,
   some ⟨true, fun _ _ => ["train", "deploy_model"]⟩,
   ⟨5, [⟨"train a model", []⟩]⟩,
   ["suggest_tools", "list_tool_categories", "train", "deploy_model"], none⟩

/-- Witness for C4: on `optC4` a pinned catalog name is in the result and a
semantic match outside the pinned set is not. -/
theorem minimal_mode_purity_witness :
    "suggest_tools" ∈ optC4.filteredListTools ∧
    ¬ "train" ∈ optC4.filteredListTools :=
  ⟨(minimal_mode_purity optC4 rfl "suggest_tools").mpr ⟨by decide, by decide⟩,
   fun h => by
      have := (minimal_mode_purity optC4 rfl "train").mp h
      exact absurd this.1 (by decide)⟩

/-- C9: for every non-`NONE` mode, configuration, catalog, context state and
semantic-index behaviour (even one returning duplicates or names absent from
the catalog), the result of `_filtered_list_tools` has no duplicates and every
returned tool is a member of the cached catalog. -/
theorem filtered_nodup_subset_catalog (o : SmallModelOptimizer)
    (hmode : o.config.smallModelMode ≠ SmallModelMode.NONE) :
    o.filteredListTools.Nodup ∧ ∀ name ∈ o.filteredListTools, name ∈ o.allTools := by
  unfold SmallModelOptimizer.filteredListTools
  rw [if_neg hmode]
  exact ⟨List.Nodup.filter _ (nodup_visibleFinal o),
    fun name h => by simpa using (List.mem_filter.mp h).2⟩

/-- Concrete optimizer state for the C9 witness: the semantic index returns a
duplicate of an already-visible tool, a repeated name and a name absent from
the catalog. -/
def optC9 : SmallModelOptimizer :=
  ⟨⟨SmallModelMode.MODERATE, 5, ["suggest_tools"]⟩,
   some ⟨true, fun _ _ => ["suggest_tools", "train", "train", "phantom_tool"]⟩,
   ⟨5, [⟨"train a model", []⟩]⟩,
   ["suggest_tools", "train", "explore_cluster"], none⟩

/-- Witness for C9 on `optC9`. -/
theorem filtered_nodup_subset_catalog_witness :
    optC9.filteredListTools.Nodup ∧
    ∀ name ∈ optC9.filteredListTools, name ∈ optC9.allTools :=
  filtered_nodup_subset_catalog optC9 (by decide)

/-- Concrete input refuting C1 as stated: MODERATE mode, `max_tools = 1`, and
two pinned tools that are both present in the catalog. -/
def optC1 : SmallModelOptimizer :=
  ⟨⟨SmallModelMode.MODERATE, 1, ["alpha", "beta"]⟩, none, ⟨5, []⟩,
   ["alpha", "beta"], none⟩

/-- C1 counterexample: in MODERATE mode with `max_tools = 1` and two pinned
names present in the catalog, `_filtered_list_tools` returns 2 tools — the cap
is exceeded, refuting the claim for the case where the pinned tools present
outnumber `max_tools`. -/
theorem filtered_cap_counterexample :
    optC1.config.smallModelMode = SmallModelMode.MODERATE ∧
    optC1.config.smallModelMaxTools = 1 ∧
    optC1.filteredListTools = ["alpha", "beta"] ∧
    ¬ ((optC1.filteredListTools.length : Int) ≤ optC1.config.smallModelMaxTools) := by
  refine ⟨rfl, rfl, rfl, ?_⟩
  decide

/-- C1 amended: in `MODERATE`/`AGGRESSIVE` mode the result of
`_filtered_list_tools` has at most `max_tools` entries provided the number of
distinct configured pinned names present in the catalog (the size of the
pinned stage `visiblePinned`) does not exceed `max_tools`; the pinned tools are
always all included, so when they exceed the cap the result is exactly them. -/
theorem filtered_cap_amended (o : SmallModelOptimizer)
    (hmode : o.config.smallModelMode = SmallModelMode.MODERATE ∨
        o.config.smallModelMode = SmallModelMode.AGGRESSIVE)
    (hpinned : (o.visiblePinned.length : Int) ≤ o.config.smallModelMaxTools) :
    ((o.filteredListTools.length : Int)) ≤ o.config.smallModelMaxTools := by
  have hne : o.config.smallModelMode ≠ SmallModelMode.NONE := by
    rcases hmode with h | h <;> simp [h]
  have hnm : o.config.smallModelMode ≠ SmallModelMode.MINIMAL := by
    rcases hmode with h | h <;> simp [h]
  unfold SmallModelOptimizer.filteredListTools
  rw [if_neg hne]
  calc ((o.visibleFinal.filter (fun name => decide (name ∈ o.allTools))).length : Int)
      ≤ (o.visibleFinal.length : Int) := by
        exact_mod_cast List.length_filter_le _ _
    _ ≤ o.config.smallModelMaxTools := visibleFinal_length_le o hnm hpinned

/-- Concrete optimizer state for the amended-C1 witness: AGGRESSIVE mode,
`max_tools = 3`, a 7-tool catalog, an initialized index and recorded context. -/
def optC1w : SmallModelOptimizer :=
  ⟨⟨SmallModelMode.AGGRESSIVE, 3, ["suggest_tools"]⟩,
   some ⟨true, fun _ _ => ["train", "deploy_model", "pipeline_run", "workbench_new"]⟩,
   ⟨5, [⟨"train a model", []⟩]⟩,
   ["suggest_tools", "train", "deploy_model", "pipeline_run", "workbench_new",
    "explore_cluster", "cluster_summary"], none⟩

/-- Witness for the amended C1 on `optC1w`. -/
theorem filtered_cap_amended_witness :
    ((optC1w.filteredListTools.length : Int)) ≤ optC1w.config.smallModelMaxTools :=
  filtered_cap_amended optC1w (Or.inr rfl) (by decide)

/-! ## ToolScopeManager (`toolscope/manager.py`) -/

/-- The `toolscope_embedder_type` values `_create_embedder` compares against
("disabled" / "sentence-transformers" / "http"). -/
inductive EmbedderType
  | disabled
  | sentenceTransformers
  | http
deriving Repr, DecidableEq

/-- Configuration fields `ToolScopeManager` reads (`toolscope_enabled`,
`toolscope_embedder_type`, `toolscope_embedder_model`,
`toolscope_embedder_url`, `toolscope_default_k`); field shapes follow their
uses in manager.py and the configuration surface. -/
structure ToolScopeConfig where
  toolscopeEnabled : Bool
  toolscopeEmbedderType : EmbedderType
  toolscopeEmbedderModel : String
  toolscopeEmbedderUrl : Option String
  toolscopeDefaultK : Int
deriving Repr

/-- The values `_create_embedder` can return: a constructed
`SentenceTransformerEmbedder` or a `toolscope.EmbeddingConfig` for the HTTP
strategy. -/
inductive Embedder
  | sentenceTransformer (model : String)
  | embeddingConfig (url model : String)
deriving Repr, DecidableEq

/-- Outcomes of the effectful steps of `initialize`: the `import toolscope`
statement, the `SentenceTransformer(model_name)` construction inside
`SentenceTransformerEmbedder.__init__` (can raise on a missing dependency or a
model-load failure), the names `_extract_tools` collects from FastMCP, and the
`toolscope.index(...)` build. `Except.error` models a raised exception. -/
structure InitEnv where
  toolscopeImport : Except String Unit
  sentenceTransformerInit : Except String Unit
  extractedTools : List String
  indexBuild : Except String Unit

/-- The mutable fields of `ToolScopeManager`: `_initialized`, whether `_index`
is set, and the keys of `_tool_metadata`. -/
structure ToolScopeState where
  initialized : Bool
  hasIndex : Bool
  toolMetadata : List String
deriving Repr, DecidableEq

/-- `ToolScopeManager._create_embedder` (manager.py lines 121–142): `disabled`
yields no embedder; `sentence-transformers` constructs
`SentenceTransformerEmbedder(model)` — whose `__init__` may raise, uncaught
here; `http` requires a non-empty `toolscope_embedder_url` (Python falsiness:
`None` or `""`), logging and yielding no embedder otherwise. -/
def createEmbedder (cfg : ToolScopeConfig) (env : InitEnv) :
    Except String (Option Embedder) :=
  match cfg.toolscopeEmbedderType with
  | EmbedderType.disabled => Except.ok none
  | EmbedderType.sentenceTransformers =>
      match env.sentenceTransformerInit with
      | Except.ok _ =>
          Except.ok (some (Embedder.sentenceTransformer cfg.toolscopeEmbedderModel))
      | Except.error e => Except.error e
  | EmbedderType.http =>
      match cfg.toolscopeEmbedderUrl with
      | none => Except.ok none
      | some url =>
          if url = "" then Except.ok none
          else Except.ok (some (Embedder.embeddingConfig url cfg.toolscopeEmbedderModel))

/-- `ToolScopeManager.initialize` (manager.py lines 62–88): `import toolscope`
runs first (a raised `ImportError` propagates); a disabled configuration or an
empty extraction returns leaving `_initialized` False; an embedder-construction
exception propagates (only the index build is inside `try`/`except`); a failed
index build is caught, leaving `_initialized` False. -/
def ToolScopeManager.initialize (cfg : ToolScopeConfig) (env : InitEnv) :
    Except String ToolScopeState :=
  match env.toolscopeImport with
  | Except.error e => Except.error e
  | Except.ok _ =>
      if ¬ cfg.toolscopeEnabled then Except.ok ⟨false, false, []⟩
      else
        let tools := env.extractedTools
        if tools.isEmpty then Except.ok ⟨false, false, tools⟩
        else
          match createEmbedder cfg env with
          | Except.error e => Except.error e
          | Except.ok none => Except.ok ⟨false, false, tools⟩
          | Except.ok (some _) =>
              match env.indexBuild with
              | Except.ok _ => Except.ok ⟨true, true, tools⟩
              | Except.error _ => Except.ok ⟨false, false, tools⟩

/-- Configuration for the C2 counterexample: ToolScope enabled with the default
sentence-transformers embedder. -/
def cfgC2 : ToolScopeConfig :=
  ⟨true, EmbedderType.sentenceTransformers, "all-MiniLM-L6-v2", none, 5⟩

/-- Environment for the C2 counterexample: tools are extracted, but the
sentence-transformers construction raises (missing dependency or model-load
error). -/
def envC2 : InitEnv :=
  ⟨Except.ok (), Except.error "model load failed", ["train"], Except.ok ()⟩

/-- C2 counterexample: with ToolScope enabled and the sentence-transformers
embedder configured, an exception raised while constructing the embedder
propagates out of `initialize` — it does not return normally with
`is_initialized` False. Only `None` returns from `_create_embedder` and
index-build failures are handled. -/
theorem initialize_raises_counterexample :
    ToolScopeManager.initialize cfgC2 envC2 = Except.error "model load failed" := rfl

/-- C2 amended: provided the `toolscope` import and any sentence-transformers
embedder construction do not themselves raise, `initialize` returns normally,
and `is_initialized` becomes True exactly when ToolScope is enabled, tool
extraction found tools, embedder construction produced an embedder, and the
index build succeeded — so on the handled failure paths (nothing extracted,
no embedder configured, index build raised) it stays False. -/
theorem initialize_graceful_amended (cfg : ToolScopeConfig) (env : InitEnv)
    (himp : env.toolscopeImport = Except.ok ())
    (hst : cfg.toolscopeEmbedderType = EmbedderType.sentenceTransformers →
        env.sentenceTransformerInit = Except.ok ()) :
    ∃ st : ToolScopeState, ToolScopeManager.initialize cfg env = Except.ok st ∧
      (st.initialized = true ↔
        (cfg.toolscopeEnabled = true ∧ env.extractedTools ≠ [] ∧
         (∃ e, createEmbedder cfg env = Except.ok (some e)) ∧
         env.indexBuild = Except.ok ())) := by
  have hemb : ∃ r, createEmbedder cfg env = Except.ok r := by
    unfold createEmbedder
    rcases hty : cfg.toolscopeEmbedderType with _ | _ | _
    · exact ⟨none, rfl⟩
    · rw [hst hty]
      exact ⟨_, rfl⟩
    · rcases cfg.toolscopeEmbedderUrl with _ | url
      · exact ⟨none, rfl⟩
      · by_cases hu : url = ""
        · exact ⟨none, by simp [hu]⟩
        · exact ⟨some (Embedder.embeddingConfig url cfg.toolscopeEmbedderModel), by simp [hu]⟩
  unfold ToolScopeManager.initialize
  rw [himp]
  by_cases hen : cfg.toolscopeEnabled
  · rw [if_neg (by simpa using hen)]
    by_cases hex : env.extractedTools.isEmpty
    · rw [if_pos hex]
      exact ⟨_, rfl, by simp [List.isEmpty_iff.mp hex]⟩
    · rw [if_neg hex]
      have hne : env.extractedTools ≠ [] := fun h => hex (List.isEmpty_iff.mpr h)
      rcases hemb with ⟨r, hr⟩
      rw [hr]
      rcases r with _ | e
      · exact ⟨_, rfl, by simp⟩
      · rcases hbuild : env.indexBuild with e' | u
        · exact ⟨_, rfl, by simp⟩
        · refine ⟨_, rfl, ?_⟩
          simp [hen, hne]
  · rw [if_pos (by simpa using hen)]
    exact ⟨_, rfl, by simp [hen]⟩

/-- Configuration for the amended-C2 witness: enabled, sentence-transformers. -/
def cfgC2w : ToolScopeConfig :=
  ⟨true, EmbedderType.sentenceTransformers, "all-MiniLM-L6-v2", none, 5⟩

/-- Environment for the amended-C2 witness: every step up to the index build
succeeds, the index build raises (the handled failure path). -/
def envC2w : InitEnv :=
  ⟨Except.ok (), Except.ok (), ["train"], Except.error "index build failed"⟩

/-- Witness for the amended C2 on `cfgC2w`/`envC2w`. -/
theorem initialize_graceful_amended_witness :
    ∃ st : ToolScopeState, ToolScopeManager.initialize cfgC2w envC2w = Except.ok st ∧
      (st.initialized = true ↔
        (cfgC2w.toolscopeEnabled = true ∧ envC2w.extractedTools ≠ [] ∧
         (∃ e, createEmbedder cfgC2w envC2w = Except.ok (some e)) ∧
         envC2w.indexBuild = Except.ok ())) :=
  initialize_graceful_amended cfgC2w envC2w rfl (fun _ => rfl)

/-! ### Category inference (`_infer_category`) -/

/-- The fixed ordered category table of `_infer_category` (manager.py lines
187–196); Python dicts preserve insertion order, so the list order is the
source's declaration order. -/
def categoryPatterns : List (String × List String) :=
  [("training", ["train", "prepare_training", "get_training"]),
   ("inference", ["deploy", "model", "endpoint", "serve"]),
   ("workbenches", ["workbench", "notebook"]),
   ("storage", ["storage", "pvc", "volume"]),
   ("connections", ["connection", "s3", "data_connection"]),
   ("pipelines", ["pipeline"]),
   ("projects", ["project"]),
   ("discovery", ["cluster", "explore", "summary", "list"])]

/-- Python `p in tool_name.lower()`: the pattern occurs as a contiguous
substring of the lower-cased tool name. -/
def patternMatches (toolName p : String) : Bool :=
  decide (p.toList <:+: toolName.toLower.toList)

/-- `any(p in tool_name.lower() for p in patterns)`. -/
def categoryMatches (toolName : String) (patterns : List String) : Bool :=
  patterns.any (patternMatches toolName)

/-- The `for category, patterns in category_patterns.items()` loop with its
early `return category` and trailing `return "other"`. -/
def inferCategoryAux (toolName : String) : List (String × List String) → String
  | [] => "other"
  | (category, patterns) :: rest =>
      if categoryMatches toolName patterns then category
      else inferCategoryAux toolName rest

/-- `ToolScopeManager._infer_category` (manager.py lines 184–202). -/
def inferCategory (toolName : String) : String :=
  inferCategoryAux toolName categoryPatterns

theorem toLower_toList (s : String) : s.toLower.toList = s.toList.map Char.toLower := by
  show (String.map Char.toLower s).data = s.data.map Char.toLower
  rw [String.map_eq]

/-- Kernel-computable form of `categoryMatches` (`String.toLower` itself is
defined through `String.mapAux`, which the kernel does not unfold). -/
theorem categoryMatches_eval (toolName : String) (patterns : List String) :
    categoryMatches toolName patterns
      = patterns.any (fun p => decide (p.toList <:+: toolName.toList.map Char.toLower)) := by
  unfold categoryMatches patternMatches
  simp only [toLower_toList]

theorem inferCategoryAux_first_match (toolName : String) :
    ∀ (table : List (String × List String)) (i : Nat), i < table.length →
      categoryMatches toolName (table.getD i ("other", [])).2 = true →
      (∀ j, j < i → categoryMatches toolName (table.getD j ("other", [])).2 = false) →
      inferCategoryAux toolName table = (table.getD i ("other", [])).1 := by
  intro table
  induction table with
  | nil =>
      intro i hi
      exact absurd hi (by simp)
  | cons hd rest ih =>
      rintro (_ | i) hi hmatch hbefore
      · rcases hd with ⟨category, patterns⟩
        simp only [List.getD_cons_zero] at hmatch ⊢
        simp [inferCategoryAux, hmatch]
      · rcases hd with ⟨category, patterns⟩
        have hhd : categoryMatches toolName patterns = false := by
          simpa using hbefore 0 (Nat.succ_pos i)
        simp only [List.getD_cons_succ] at hmatch ⊢
        simp only [inferCategoryAux, hhd, if_neg]
        exact ih i (Nat.lt_of_succ_lt_succ hi) hmatch
          (fun j hj => by simpa using hbefore (j + 1) (Nat.succ_lt_succ hj))

theorem inferCategoryAux_no_match (toolName : String)
    (table : List (String × List String))
    (h : ∀ i : Nat, i < table.length →
        categoryMatches toolName (table.getD i ("other", [])).2 = false) :
    inferCategoryAux toolName table = "other" := by
  induction table with
  | nil => rfl
  | cons hd rest ih =>
      rcases hd with ⟨category, patterns⟩
      have hhd : categoryMatches toolName patterns = false := by
        simpa using h 0 (Nat.succ_pos _)
      simp only [inferCategoryAux, hhd, if_neg]
      exact ih (fun i hi => by simpa using h (i + 1) (Nat.succ_lt_succ hi))

/-- C8: `_infer_category` assigns the first category, in the fixed table's
declared order, whose pattern list contains a pattern occurring as a substring
of the lower-cased tool name, and assigns "other" when no pattern matches; as a
pure function of the name it is deterministic: two calls on the same name
agree. -/
theorem inferCategory_spec (toolName : String) :
    (∀ p, patternMatches toolName p = true ↔ p.toList <:+: toolName.toLower.toList) ∧
    (∀ i : Nat, i < categoryPatterns.length →
        categoryMatches toolName (categoryPatterns.getD i ("other", [])).2 = true →
        (∀ j, j < i →
            categoryMatches toolName (categoryPatterns.getD j ("other", [])).2 = false) →
        inferCategory toolName = (categoryPatterns.getD i ("other", [])).1) ∧
    ((∀ i : Nat, i < categoryPatterns.length →
        categoryMatches toolName (categoryPatterns.getD i ("other", [])).2 = false) →
        inferCategory toolName = "other") ∧
    inferCategory toolName = inferCategory toolName := by
  refine ⟨fun p => by simp [patternMatches], ?_, ?_, rfl⟩
  · exact fun i hi h1 h2 => inferCategoryAux_first_match toolName categoryPatterns i hi h1 h2
  · exact fun h => inferCategoryAux_no_match toolName categoryPatterns h

/-- Witness for C8: "create_workbench" matches the "workbenches" entry
(index 2) and no earlier entry, so inference returns "workbenches"; a name
matching no entry returns "other". -/
theorem inferCategory_spec_witness :
    inferCategory ("create_workbench") = "workbenches" ∧
    inferCategory ("frobnicate") = "other" :=
  ⟨(inferCategory_spec ("create_workbench")).2.1 2 (by decide)
      (by rw [categoryMatches_eval]; decide)
      (fun j hj =>
        match j, hj with
        | 0, _ => by rw [categoryMatches_eval]; decide
        | 1, _ => by rw [categoryMatches_eval]; decide),
   (inferCategory_spec ("frobnicate")).2.2.1 (fun i hi =>
      match i, hi with
      | 0, _ => by rw [categoryMatches_eval]; decide
      | 1, _ => by rw [categoryMatches_eval]; decide
      | 2, _ => by rw [categoryMatches_eval]; decide
      | 3, _ => by rw [categoryMatches_eval]; decide
      | 4, _ => by rw [categoryMatches_eval]; decide
      | 5, _ => by rw [categoryMatches_eval]; decide
      | 6, _ => by rw [categoryMatches_eval]; decide
      | 7, _ => by rw [categoryMatches_eval]; decide)⟩

/-! ### Semantic search (`ToolScopeManager.search`) -/

/-- One raw result dict from `self._index.filter(...)`: every field is read
with `.get(key, default)`, so each may be absent. Python float scores are
modelled as rationals. -/
structure RawTool where
  name : Option String
  description : Option String
  score : Option Rat
  tags : Option (List String)

/-- A tool matched by semantic search (`ToolMatch`, manager.py lines 17–25). -/
structure ToolMatch where
  name : String
  description : String
  score : Rat
  category : String
  tags : List String
deriving Repr, DecidableEq

/-- Outcome of the underlying `self._index.filter(messages=query, k=k)` call,
as a function of the query and the effective k; `Except.error` models a raised
exception. -/
structure SearchEnv where
  filterCall : String → Int → Except String (List RawTool)

/-- Python `k = k or self._config.toolscope_default_k` (manager.py line 154):
`None` and `0` are falsy and fall back to the configured default. -/
def effectiveK (cfg : ToolScopeConfig) (k : Option Int) : Int :=
  match k with
  | none => cfg.toolscopeDefaultK
  | some v => if v = 0 then cfg.toolscopeDefaultK else v

/-- `ToolScopeManager.search` (manager.py lines 144–182): the empty list when
not initialized or the index is unset; otherwise the raw results become
`ToolMatch` values carrying the inferred category, then — when `categories` is
truthy (a non-empty list) — are filtered to those categories in order; a raised
exception is caught and yields the empty list for that call. No branch assigns
any manager field, so the state is returned unchanged. -/
def ToolScopeManager.search (cfg : ToolScopeConfig) (st : ToolScopeState)
    (env : SearchEnv) (query : String) (k : Option Int)
    (categories : Option (List String)) : List ToolMatch × ToolScopeState :=
  if ¬ st.initialized ∨ ¬ st.hasIndex then ([], st)
  else
    match env.filterCall query (effectiveK cfg k) with
    | Except.error _ => ([], st)
    | Except.ok results =>
        let toolMatches := results.map (fun tool =>
          let name := tool.name.getD ""
          ToolMatch.mk name (tool.description.getD "") (tool.score.getD 0)
            (inferCategory name) (tool.tags.getD []))
        let filtered :=
          match categories with
          | none => toolMatches
          | some cs =>
              if cs.isEmpty then toolMatches
              else toolMatches.filter (fun m => cs.contains m.category)
        (filtered, st)

/-- C7: `search` returns the empty list when the index is not initialized;
when it is initialized and the underlying query raises, the exception is
caught and that call returns the empty list; and no call path modifies the
manager state, so `is_initialized` is unchanged and the index stays ready for
later queries. -/
theorem search_error_handling (cfg : ToolScopeConfig) (st : ToolScopeState)
    (env : SearchEnv) (query : String) (k : Option Int)
    (categories : Option (List String)) :
    (st.initialized = false →
        ToolScopeManager.search cfg st env query k categories = ([], st)) ∧
    (∀ e, env.filterCall query (effectiveK cfg k) = Except.error e →
        (ToolScopeManager.search cfg st env query k categories).1 = []) ∧
    (ToolScopeManager.search cfg st env query k categories).2 = st := by
  refine ⟨?_, ?_, ?_⟩
  · intro h
    unfold ToolScopeManager.search
    rw [if_pos (Or.inl (by simp [h]))]
  · intro e he
    unfold ToolScopeManager.search
    split
    · rfl
    · rw [he]
  · unfold ToolScopeManager.search
    split
    · rfl
    · rcases hfc : env.filterCall query (effectiveK cfg k) with e | results
      · rfl
      · rcases categories with _ | cs
        · rfl
        · by_cases hcs : cs.isEmpty <;> simp [hcs]

/-- Concrete states for the C7 witness: an uninitialized manager, and a ready
manager whose underlying query raises. -/
def cfgC7 : ToolScopeConfig :=
  ⟨true, EmbedderType.sentenceTransformers, "all-MiniLM-L6-v2", none, 5⟩

/-- Ready manager state for the C7 witness. -/
def stC7 : ToolScopeState := ⟨true, true, ["train"]⟩

/-- Uninitialized manager state for the C7 witness. -/
def stC7u : ToolScopeState := ⟨false, false, []⟩

/-- Search environment for the C7 witness: the underlying query always raises. -/
def envC7 : SearchEnv := ⟨fun _ _ => Except.error "connection refused"⟩

/-- Witness for C7 on concrete states: uninitialized yields `[]`; a raising
query on a ready manager yields `[]` and leaves the state intact. -/
theorem search_error_handling_witness :
    (ToolScopeManager.search cfgC7 stC7u envC7 ("train a model") none none
        = ([], stC7u)) ∧
    ((ToolScopeManager.search cfgC7 stC7 envC7 ("train a model") none none).1 = []) ∧
    ((ToolScopeManager.search cfgC7 stC7 envC7 ("train a model") none none).2 = stC7) :=
  ⟨(search_error_handling cfgC7 stC7u envC7 ("train a model") none none).1 rfl,
   (search_error_handling cfgC7 stC7 envC7 ("train a model") none none).2.1
     ("connection refused") rfl,
   (search_error_handling cfgC7 stC7 envC7 ("train a model") none none).2.2⟩

/-- C10: calling `search` with `k = 0` does not request zero results — `k or
default` treats `0` as falsy, so the effective k is the configured default and
the call behaves exactly as when `k` is omitted. -/
theorem search_k_zero (cfg : ToolScopeConfig) :
    effectiveK cfg (some 0) = cfg.toolscopeDefaultK ∧
    ∀ (st : ToolScopeState) (env : SearchEnv) (query : String)
        (categories : Option (List String)),
      ToolScopeManager.search cfg st env query (some 0) categories
        = ToolScopeManager.search cfg st env query none categories :=
  ⟨rfl, fun _ _ _ _ => rfl⟩

end RhoaiMCP
